import Mathlib

/-!
# Verification of the astrohack antenna-surface core

Shallow embedding of `astrohack._classes.antenna_surface.AntennaSurface` (and
the construction-time check of `astrohack._classes.polygon_panel.GeneralPanel`)
together with proofs about the embedded definitions.

Modelling conventions:
* numpy float arrays become functions `Fin nu → Fin nv → Option ℝ`, where
  `none` stands for NaN (every arithmetic map propagates `none`);
* purely real-valued grids (radius, azimuth) become `Fin nu → Fin nv → ℝ`;
* boolean numpy arrays become `Fin nu → Fin nv → Bool`;
* fatal `raise` statements become `Except String _` results.
-/

namespace Astrohack

/-- A float-array entry: `none` models NaN. -/
abbrev FVal := Option ℝ

/-- A 2-d float map (numpy array) of shape `nu × nv`; `none` entries model NaN. -/
abbrev OMap (nu nv : ℕ) := Fin nu → Fin nv → FVal

/-- `twopi` from `astrohack._utils._constants`. -/
noncomputable def twopi : ℝ := 2 * Real.pi

/-- `fourpi` from `astrohack._utils._constants`. -/
noncomputable def fourpi : ℝ := 4 * Real.pi

/-- IEEE comparison `x < c` for a possibly-NaN `x`: a comparison against NaN is
false. Mirrors `self.amplitude < self.cut` in `_build_ring_mask`. -/
def optLt (x : FVal) (c : ℝ) : Prop :=
  match x with
  | some a => a < c
  | none => False

/-- IEEE inequality `x != y` for possibly-NaN values: any comparison involving
NaN yields True. Mirrors `self.deviation != self.deviation` in
`_build_ring_mask` (the classic NaN test). -/
def optNe (x y : FVal) : Prop :=
  match x, y with
  | some a, some b => a ≠ b
  | _, _ => True

/-- `AntennaSurface.__init__` lines 31-34: the amplitude threshold is
`cutoff * np.max(amplitude)`, with `cutoff` defaulting to `0.2` when `None`. -/
def cutoff_threshold (cutoff : Option ℝ) (maxAmp : ℝ) : ℝ :=
  match cutoff with
  | none => 0.2 * maxAmp
  | some c => c * maxAmp

/-- `AntennaSurface._build_ring_mask`, per pixel.  The five `np.where` steps:
```
mask = np.where(amplitude < cut, False, True)
mask = np.where(rad > inlim, mask, False)
mask = np.where(rad < oulim, mask, False)
mask = np.where(np.isnan(amplitude), False, mask)
mask = np.where(deviation != deviation, False, mask)
```
-/
def build_ring_mask (amp dev : FVal) (rad cut inlim oulim : ℝ) : Prop :=
  let mask1 : Prop := ¬ optLt amp cut
  let mask2 : Prop := inlim < rad ∧ mask1
  let mask3 : Prop := rad < oulim ∧ mask2
  let mask4 : Prop := ¬ (amp = none) ∧ mask3
  let mask5 : Prop := ¬ optNe dev dev ∧ mask4
  mask5

/-- The mask predicate exactly as claim C2 words it (closed radial interval):
amplitude at least the cutoff, radius within the CLOSED interval
`[inlim, oulim]`, amplitude not NaN, deviation not NaN.  Stated from the
spec's words for comparison with `build_ring_mask`, which is translated from
the source. -/
def ring_mask_spec_closed (amp dev : FVal) (rad cut inlim oulim : ℝ) : Prop :=
  (∃ a, amp = some a ∧ cut ≤ a) ∧ inlim ≤ rad ∧ rad ≤ oulim ∧ amp ≠ none ∧ dev ≠ none

/-- `AntennaSurface._phase_to_deviation`, per pixel. -/
noncomputable def phase_to_deviation (wavelength focus rad phase : ℝ) : ℝ :=
  let acoeff := (wavelength / twopi) / (4.0 * focus)
  let bcoeff := 4 * focus ^ 2
  acoeff * phase * Real.sqrt (rad ^ 2 + bcoeff)

/-- `AntennaSurface._deviation_to_phase`, per pixel. -/
noncomputable def deviation_to_phase (wavelength focus rad deviation : ℝ) : ℝ :=
  let acoeff := (wavelength / twopi) / (4.0 * focus)
  let bcoeff := 4 * focus ^ 2
  deviation / (acoeff * Real.sqrt (rad ^ 2 + bcoeff))

/-- `AntennaSurface._deviation_to_phase` applied to a whole (possibly NaN
carrying) map, as done on the corrections and residuals maps in
`correct_surface`; NaN propagates elementwise. -/
noncomputable def deviation_to_phase_map (wavelength focus : ℝ) (rad : Fin nu → Fin nv → ℝ)
    (m : OMap nu nv) : OMap nu nv :=
  fun ix iy => (m ix iy).map (fun d => deviation_to_phase wavelength focus (rad ix iy) d)

/-- numpy's `arctan2 y x`: the argument of the point `(x, y)`, in `(-π, π]`,
with `arctan2 0 0 = 0` (no division-by-zero error). -/
noncomputable def arctan2 (y x : ℝ) : ℝ := Complex.arg ⟨x, y⟩

/-- The normalisation `np.where(phi < 0, phi + twopi, phi)` applied in
`_build_polar`, per element. -/
noncomputable def norm_angle (φ : ℝ) : ℝ := if φ < 0 then φ + twopi else φ

/-- `AntennaSurface._build_polar`, radius grid:
`self.rad = np.sqrt(u2d**2 + v2d**2)` with `u2d = u.reshape(n,1)`,
`v2d = v.reshape(1,n)`. -/
noncomputable def build_polar_rad (u v : Fin n → ℝ) : Fin n → Fin n → ℝ :=
  fun ix iy => Real.sqrt (u ix ^ 2 + v iy ^ 2)

/-- `AntennaSurface._build_polar`, azimuth grid:
`self.phi = np.arctan2(u2d, v2d)`, then `np.where(phi < 0, phi+twopi, phi).T`.
The trailing transpose makes the entry at `[ix, iy]` the normalised value of
`arctan2(u[iy], v[ix])`. -/
noncomputable def build_polar_phi (u v : Fin n → ℝ) : Fin n → Fin n → ℝ :=
  fun ix iy => norm_angle (arctan2 (u iy) (v ix))

/-- The azimuth grid exactly as claim C7 words it: the azimuth assigned to
pixel `(ix, iy)` (whose Cartesian coordinates are `(u[ix], v[iy])`) is the
angle measured from the y-axis increasing toward positive x, normalised into
`[0, 2π)` -- that is, the normalised `arctan2(u[ix], v[iy])`.  Stated from the
spec's words for comparison with `build_polar_phi`, which is translated from
the source. -/
noncomputable def polar_phi_spec (u v : Fin n → ℝ) : Fin n → Fin n → ℝ :=
  fun ix iy => norm_angle (arctan2 (u ix) (v iy))

/-- Python's `'{0:d}'.format(n)` for a natural number: plain decimal digits. -/
def format_d (n : ℕ) : String := Nat.repr n

/-- Python's `'{0:2d}'.format(n)` for a natural number: decimal digits
right-aligned to a minimum field width of 2 (padded with a space on the
left when the number has a single digit). -/
def format_2d (n : ℕ) : String :=
  let s := Nat.repr n
  if s.length < 2 then " " ++ s else s

/-- `AntennaSurface._vla_panel_labeling`:
`'{0:d}-{1:2d}'.format(iring+1, ipanel+1)`. -/
def vla_panel_labeling (iring ipanel : ℕ) : String :=
  format_d (iring + 1) ++ "-" ++ format_2d (ipanel + 1)

/-- `_convert_to_db`.  Modelled from the spec: the converter lives in
`astrohack._utils._conversion`, which is not among the provided sources; the
spec states both gain values are "converted to decibels (10·log10)". -/
noncomputable def convert_to_db (x : ℝ) : ℝ := 10 * Real.logb 10 x

/-- The set of valid (masked) pixels of a boolean mask array. -/
def mask_set (mask : Fin nu → Fin nv → Bool) : Finset (Fin nu × Fin nv) :=
  Finset.univ.filter (fun p => mask p.1 p.2 = true)

/-- The theoretical (Ruze) gain of `AntennaSurface._gains_array`:
`thgain = fourpi * (1000.0 * self.reso / self.wavelength) ** 2`. -/
noncomputable def theoretical_gain (reso wavelength : ℝ) : ℝ :=
  fourpi * (1000.0 * reso / wavelength) ^ 2

/-- `AntennaSurface._gains_array`:
```
thgain = fourpi * (1000.0 * self.reso / self.wavelength) ** 2
gain = thgain * np.sqrt(np.sum(np.cos(arr[mask]))**2
                        + np.sum(np.sin(arr[mask]))**2) / np.sum(mask)
return _convert_to_db(gain), _convert_to_db(thgain)
``` -/
noncomputable def gains_array (mask : Fin nu → Fin nv → Bool) (reso wavelength : ℝ)
    (arr : Fin nu → Fin nv → ℝ) : ℝ × ℝ :=
  let thgain := theoretical_gain reso wavelength
  let sumcos := ∑ p ∈ mask_set mask, Real.cos (arr p.1 p.2)
  let sumsin := ∑ p ∈ mask_set mask, Real.sin (arr p.1 p.2)
  let gain := thgain * Real.sqrt (sumcos ^ 2 + sumsin ^ 2) / ((mask_set mask).card : ℝ)
  (convert_to_db gain, convert_to_db thgain)

/-- The mutable state of an `AntennaSurface` relevant to fitting and
correction.  `corrections`, `residuals`, `phase_corrections` and
`phase_residuals` are `none` (Python `None`) until `correct_surface` has run;
`solved` is set by `fit_surface`. -/
structure SurfaceState (nu nv : ℕ) where
  amplitude : OMap nu nv
  phase : OMap nu nv
  deviation : OMap nu nv
  mask : Fin nu → Fin nv → Bool
  rad : Fin nu → Fin nv → ℝ
  wavelength : ℝ
  focus : ℝ
  solved : Bool
  corrections : Option (OMap nu nv)
  residuals : Option (OMap nu nv)
  phase_corrections : Option (OMap nu nv)
  phase_residuals : Option (OMap nu nv)

/-- The part of `AntennaSurface._nullify` that concerns the derived products:
`self.residuals = None; self.corrections = None; self.phase_corrections = None;
self.phase_residuals = None; self.solved = False`.  (`phase` and `deviation`
are populated during construction and are modelled as total fields.) -/
def nullify (s : SurfaceState nu nv) : SurfaceState nu nv :=
  { s with corrections := none, residuals := none,
           phase_corrections := none, phase_residuals := none, solved := false }

/-- Point update of a 2-d map at one pixel (a numpy `m[ix, iy] = v`). -/
def update_map (m : OMap nu nv) (i : Fin nu) (j : Fin nv) (v : FVal) : OMap nu nv :=
  fun a b => if a = i ∧ b = j then v else m a b

/-- Subtraction of a real from a possibly-NaN value, NaN propagating
(`self.residuals[ix, iy] -= corr[-1]`). -/
def fval_sub (x : FVal) (c : ℝ) : FVal := x.map (fun a => a - c)

/-- A correction record as consumed by `correct_surface`: `get_corrections()`
yields `(row, col, correction)` triples, read as
`ix, iy = int(corr[0]), int(corr[1])` and `corr[-1]`. -/
abbrev CorrRecord (nu nv : ℕ) := Fin nu × Fin nv × ℝ

/-- The pixel a correction record applies to. -/
def corr_pix (q : CorrRecord nu nv) : Fin nu × Fin nv := (q.1, q.2.1)

/-- The loop body of `correct_surface` over all panels' correction records:
for each record, subtract the correction from the residual at that pixel and
store the negated correction into the corrections map. -/
def apply_corrections (corrs : List (CorrRecord nu nv)) (cm rm : OMap nu nv) :
    OMap nu nv × OMap nu nv :=
  corrs.foldl
    (fun acc q =>
      (update_map acc.1 q.1 q.2.1 (some (-q.2.2)),
       update_map acc.2 q.1 q.2.1 (fval_sub (acc.2 q.1 q.2.1) q.2.2)))
    (cm, rm)

/-- `AntennaSurface.correct_surface`.  The panels' correction records (the
concatenation over `self.panels` of `panel.get_corrections()`) are passed in
as `corrs`; `get_corrections` itself belongs to the panel classes, whose
sources are not provided.
```
if not self.solved:
    raise Exception("Panels must be fitted before atempting a correction")
self.corrections = np.where(self.mask, 0, np.nan)
self.residuals = np.copy(self.deviation)
for panel in self.panels:
    for corr in panel.get_corrections():
        ix, iy = int(corr[0]), int(corr[1])
        self.residuals[ix, iy] -= corr[-1]
        self.corrections[ix, iy] = -corr[-1]
self.phase_corrections = self._deviation_to_phase(self.corrections)
self.phase_residuals = self._deviation_to_phase(self.residuals)
``` -/
noncomputable def correct_surface (s : SurfaceState nu nv)
    (corrs : List (CorrRecord nu nv)) : Except String (SurfaceState nu nv) :=
  if !s.solved then
    Except.error "Panels must be fitted before atempting a correction"
  else
    let init_corr : OMap nu nv := fun ix iy => if s.mask ix iy then some 0 else none
    let fr := apply_corrections corrs init_corr s.deviation
    Except.ok { s with
      corrections := some fr.1,
      residuals := some fr.2,
      phase_corrections := some (deviation_to_phase_map s.wavelength s.focus s.rad fr.1),
      phase_residuals := some (deviation_to_phase_map s.wavelength s.focus s.rad fr.2) }

/-- A sample/margin record: `[xc, yc, ix, iy, deviation[ix, iy]]`. -/
abbrev PointRecord := ℝ × ℝ × ℕ × ℕ × FVal

/-- The per-panel data touched by point assignment: the geometric membership
test `is_inside(rad, phi) -> (issample, inpanel)` (held abstract: the ring
panel classes' sources are not provided) and the ordered sample and margin
collections. -/
structure PanelPoints where
  is_inside : ℝ → ℝ → Bool × Bool
  samples : List PointRecord
  margins : List PointRecord

/-- `panel.add_sample(record)`: append to the ordered sample collection. -/
def add_sample (p : PanelPoints) (v : PointRecord) : PanelPoints :=
  { p with samples := p.samples ++ [v] }

/-- `panel.add_margin(record)`: append to the ordered margin collection. -/
def add_margin (p : PanelPoints) (v : PointRecord) : PanelPoints :=
  { p with margins := p.margins ++ [v] }

/-- The inner loop of `AntennaSurface._compile_panel_points_ringed` for one
valid pixel: walk the panel list in order; at the first panel whose
`is_inside` returns `inpanel = True`, route the record to `add_sample` or
`add_margin` according to `issample` and `break`. -/
def assign_pixel (panels : List PanelPoints) (r φ : ℝ) (v : PointRecord) :
    List PanelPoints :=
  match panels with
  | [] => []
  | panel :: rest =>
    let t := panel.is_inside r φ
    if t.2 then
      (if t.1 then add_sample panel v else add_margin panel v) :: rest
    else
      panel :: assign_pixel rest r φ v

/-- `AntennaSurface._compile_panel_points_ringed`: loop over all pixels in
row-major order and assign every masked pixel. -/
def compile_panel_points_ringed (mask : Fin nu → Fin nv → Bool)
    (rad phi : Fin nu → Fin nv → ℝ) (u_axis : Fin nu → ℝ) (v_axis : Fin nv → ℝ)
    (deviation : OMap nu nv) (panels : List PanelPoints) : List PanelPoints :=
  (List.finRange nu).foldl
    (fun ps ix =>
      (List.finRange nv).foldl
        (fun ps2 iy =>
          if mask ix iy then
            assign_pixel ps2 (rad ix iy) (phi ix iy)
              (u_axis ix, v_axis iy, ix.val, iy.val, deviation ix iy)
          else ps2)
        ps)
    panels

/-- `AntennaSurface._read_xds` configuration check.  For non-AIPS input with a
`chan` dimension: `if inputxds.dims['chan'] != 1: raise Exception("Only single
channel holographies supported")`.  The AIPS branch performs no check. -/
def read_xds_check (aips : Bool) (chanDim : Option ℕ) : Except String Unit :=
  if aips then Except.ok ()
  else
    match chanDim with
    | some nchan => if nchan ≠ 1 then Except.error "Only single channel holographies supported" else Except.ok ()
    | none => Except.ok ()

/-- `AntennaSurface._init_ringed` numbering-convention check:
```
if self.telescope.panel_numbering == 'ring, clockwise, top': ...
elif self.telescope.panel_numbering == 'sector, counterclockwise, right': ...
else: raise Exception("Unknown panel labeling: " + ...)
```
The remaining construction steps (`_build_polar`, `_build_ring_panels`,
`_build_ring_mask`) raise no configuration error.  Modelled from the spec:
the `RingPanel`/`BasePanel` constructors invoked by `_build_ring_panels` are
not among the provided sources, and the spec's error taxonomy names no
construction-time error for them. -/
def init_ringed_check (numbering : String) : Except String Unit :=
  if numbering = "ring, clockwise, top" then Except.ok ()
  else if numbering = "sector, counterclockwise, right" then Except.ok ()
  else Except.error ("Unknown panel labeling: " ++ numbering)

/-- The configuration checks of `AntennaSurface.__init__`: `_read_xds` runs
first, then (for ringed telescopes) `_init_ringed`.  The other constructor
steps raise no configuration error. -/
def antenna_surface_init_check (aips : Bool) (chanDim : Option ℕ)
    (ringed : Bool) (numbering : String) : Except String Unit :=
  match read_xds_check aips chanDim with
  | Except.error e => Except.error e
  | Except.ok _ => if ringed then init_ringed_check numbering else Except.ok ()

/-- The panel-kind list of `astrohack._classes.base_panel`.  Modelled from the
spec: `base_panel.py` is not among the provided sources; the spec's model
table lists mean, rigid, xy-paraboloid, rotated-paraboloid and
co-rotated-paraboloid, and `polygon_panel.py` compares against
`panelkinds[icorpara]` with the message naming `corotatedparaboloid`. -/
def panelkinds : List String :=
  ["mean", "rigid", "xyparaboloid", "rotatedparaboloid", "corotatedparaboloid"]

/-- Index of the co-rotated paraboloid kind in `panelkinds`. -/
def icorpara : ℕ := 4

/-- The construction-time check of `GeneralPanel.__init__`
(`polygon_panel.py`): `if kind == panelkinds[icorpara]: raise
Exception('corotatedparaboloid not supported for Polygon based panels')`.
No other configuration is rejected there. -/
def general_panel_init_check (kind : String) : Except String Unit :=
  if kind = panelkinds.getD icorpara "" then
    Except.error "corotatedparaboloid not supported for Polygon based panels"
  else Except.ok ()

/-! ## Concrete example states used by witnesses -/

/-- A concrete 1×1 antenna-surface state before fitting. -/
noncomputable def example_state : SurfaceState 1 1 where
  amplitude := fun _ _ => some 1
  phase := fun _ _ => some 0
  deviation := fun _ _ => some 0
  mask := fun _ _ => true
  rad := fun _ _ => 0
  wavelength := 1
  focus := 1
  solved := false
  corrections := none
  residuals := none
  phase_corrections := none
  phase_residuals := none

/-- The same concrete state after `fit_surface` has set `solved`. -/
noncomputable def example_state_solved : SurfaceState 1 1 :=
  { example_state with solved := true }

/-- A concrete panel whose `is_inside` always answers "not inside". -/
def panel_out : PanelPoints := ⟨fun _ _ => (false, false), [], []⟩

/-- A concrete panel whose `is_inside` always answers "inside, sample". -/
def panel_in : PanelPoints := ⟨fun _ _ => (true, true), [], []⟩

/-- A concrete sample record. -/
noncomputable def example_record : PointRecord := (0, 0, 0, 0, some 0)

/-- A concrete coordinate axis `[0, 1]` used as both `u` and `v`. -/
noncomputable def ex_axis : Fin 2 → ℝ := fun i => (i.val : ℝ)

/-- A concrete one-pixel coordinate axis `[0]`. -/
noncomputable def ex_axis0 : Fin 1 → ℝ := fun _ => 0

/-- A concrete all-valid 1×1 mask. -/
def ex_mask : Fin 1 → Fin 1 → Bool := fun _ _ => true

/-- A concrete constant (zero) phase array. -/
noncomputable def ex_zero_arr : Fin 1 → Fin 1 → ℝ := fun _ _ => 0

/-! ## C2: the validity mask -/

/-- C2 counterexample: claim C2 states the radius must lie in the CLOSED
interval `[inner-limit, outer-limit]`, but `_build_ring_mask` uses the strict
comparisons `rad > inlim` and `rad < oulim`.  At a pixel with radius exactly
equal to the inner limit (amplitude 1 ≥ cut 0.2, no NaNs, radius 1,
inner limit 1, outer limit 2) the spec's closed-interval predicate holds but
the code marks the pixel invalid. -/
theorem build_ring_mask_closed_cex :
    ¬ (build_ring_mask (some 1) (some 0) 1 (2/10) 1 2 ↔
        ring_mask_spec_closed (some 1) (some 0) 1 (2/10) 1 2) := by
  intro h
  have hspec : ring_mask_spec_closed (some 1) (some 0) 1 (2/10) 1 2 := by
    refine ⟨⟨1, rfl, by norm_num⟩, le_refl 1, by norm_num, by simp, by simp⟩
  have hmask := h.mpr hspec
  simp only [build_ring_mask] at hmask
  exact absurd hmask.2.2.2.1 (lt_irrefl 1)

/-- C2 amended: a pixel is valid iff its amplitude is defined (not NaN) and at
least the cutoff, its radius lies strictly inside the OPEN interval
`(inner-limit, outer-limit)`, and its deviation is not NaN; the amplitude
threshold defaults to 0.2 of the peak amplitude when no cutoff is supplied. -/
theorem build_ring_mask_iff (amp dev : FVal) (rad cut inlim oulim : ℝ) :
    (build_ring_mask amp dev rad cut inlim oulim ↔
      ((∃ a, amp = some a ∧ cut ≤ a) ∧ inlim < rad ∧ rad < oulim ∧ dev ≠ none)) ∧
    (∀ maxAmp : ℝ, cutoff_threshold none maxAmp = 0.2 * maxAmp) := by
  constructor
  · cases amp with
    | none => simp [build_ring_mask, optLt, optNe]
    | some a =>
      cases dev with
      | none => simp [build_ring_mask, optLt, optNe]
      | some d =>
        simp only [build_ring_mask, optLt, optNe, not_lt, ne_eq, not_not,
          reduceCtorEq, not_false_iff, true_and, and_true, Option.some.injEq]
        constructor
        · rintro ⟨h3, h2, h1⟩
          exact ⟨⟨a, rfl, h1⟩, h2, h3⟩
        · rintro ⟨⟨b, rfl, hcut⟩, h2, h3⟩
          exact ⟨h3, h2, hcut⟩
  · intro maxAmp; rfl

/-! ## C6: phase ↔ deviation conversion -/

/-- C6: the deviation derived from a phase is
`(wavelength/2π)/(4·focus) · phase · sqrt(radius² + 4·focus²)`, and for
positive focal length and wavelength, converting that deviation back with
`_deviation_to_phase` recovers the phase exactly, so the two maps held by an
`AntennaSurface` are mutually consistent. -/
theorem phase_deviation_roundtrip (wavelength focus rad phase : ℝ)
    (hw : 0 < wavelength) (hf : 0 < focus) :
    deviation_to_phase wavelength focus rad (phase_to_deviation wavelength focus rad phase)
      = phase ∧
    phase_to_deviation wavelength focus rad phase
      = ((wavelength / (2 * Real.pi)) / (4 * focus)) * phase
          * Real.sqrt (rad ^ 2 + 4 * focus ^ 2) := by
  have hpi : (0:ℝ) < twopi := by
    simp only [twopi]; positivity
  have ha : 0 < (wavelength / twopi) / (4.0 * focus) := by positivity
  have hsq : 0 < rad ^ 2 + 4 * focus ^ 2 := by positivity
  have hs : 0 < Real.sqrt (rad ^ 2 + 4 * focus ^ 2) := Real.sqrt_pos.mpr hsq
  constructor
  · simp only [deviation_to_phase, phase_to_deviation]
    rw [mul_comm ((wavelength / twopi) / (4.0 * focus)) phase, mul_assoc,
      mul_div_assoc, div_self (ne_of_gt (mul_pos ha hs)), mul_one]
  · simp only [phase_to_deviation, twopi]
    norm_num

/-- Witness for `phase_deviation_roundtrip` at wavelength 1, focus 1,
radius 0, phase 1. -/
theorem phase_deviation_roundtrip_witness :
    (0:ℝ) < 1 ∧ (0:ℝ) < 1 ∧
    (deviation_to_phase 1 1 0 (phase_to_deviation 1 1 0 1) = 1 ∧
     phase_to_deviation 1 1 0 1
       = ((1 / (2 * Real.pi)) / (4 * 1)) * 1 * Real.sqrt ((0:ℝ) ^ 2 + 4 * 1 ^ 2)) :=
  ⟨one_pos, one_pos, phase_deviation_roundtrip 1 1 0 1 one_pos one_pos⟩

/-! ## C4: correct_surface before fit_surface -/

/-- C4: calling `correct_surface` on a surface that has not been fitted
(`solved = false`) raises the fatal error and produces no new state, and the
nullified construction state has `corrections`, `residuals`,
`phase_corrections` and `phase_residuals` all `None`. -/
theorem correct_surface_requires_fit (s : SurfaceState nu nv)
    (corrs : List (CorrRecord nu nv)) (hs : s.solved = false) :
    correct_surface s corrs
        = Except.error "Panels must be fitted before atempting a correction" ∧
    (nullify s).corrections = none ∧ (nullify s).residuals = none ∧
    (nullify s).phase_corrections = none ∧ (nullify s).phase_residuals = none := by
  refine ⟨?_, rfl, rfl, rfl, rfl⟩
  simp [correct_surface, hs]

/-- Witness for `correct_surface_requires_fit` on the concrete unfitted
example state. -/
theorem correct_surface_requires_fit_witness :
    example_state.solved = false ∧
    (correct_surface example_state []
        = Except.error "Panels must be fitted before atempting a correction" ∧
     (nullify example_state).corrections = none ∧
     (nullify example_state).residuals = none ∧
     (nullify example_state).phase_corrections = none ∧
     (nullify example_state).phase_residuals = none) :=
  ⟨rfl, correct_surface_requires_fit example_state [] rfl⟩

/-! ## C8: configuration errors at construction -/

/-- C8: construction fails with a fatal configuration error in exactly three
cases: a non-AIPS input with a multi-element channel dimension, an unknown
panel-numbering convention on a ringed telescope, and the co-rotated
paraboloid kind requested for a polygon panel; no other configuration is
rejected by these checks. -/
theorem construction_error_cases (aips : Bool) (chanDim : Option ℕ)
    (ringed : Bool) (numbering kind : String) :
    ((∃ e, antenna_surface_init_check aips chanDim ringed numbering = Except.error e) ↔
      ((aips = false ∧ ∃ nchan, chanDim = some nchan ∧ nchan ≠ 1) ∨
       (ringed = true ∧ numbering ≠ "ring, clockwise, top" ∧
        numbering ≠ "sector, counterclockwise, right"))) ∧
    ((∃ e, general_panel_init_check kind = Except.error e) ↔
      kind = "corotatedparaboloid") := by
  constructor
  · cases aips with
    | true =>
      cases ringed with
      | true =>
        by_cases hn1 : numbering = "ring, clockwise, top" <;>
          by_cases hn2 : numbering = "sector, counterclockwise, right" <;>
            simp [antenna_surface_init_check, read_xds_check, init_ringed_check, hn1, hn2]
      | false => simp [antenna_surface_init_check, read_xds_check]
    | false =>
      rcases chanDim with _ | nchan
      · cases ringed with
        | true =>
          by_cases hn1 : numbering = "ring, clockwise, top" <;>
            by_cases hn2 : numbering = "sector, counterclockwise, right" <;>
              simp [antenna_surface_init_check, read_xds_check, init_ringed_check, hn1, hn2]
        | false => simp [antenna_surface_init_check, read_xds_check]
      · by_cases hc : nchan = 1
        · subst hc
          cases ringed with
          | true =>
            by_cases hn1 : numbering = "ring, clockwise, top" <;>
              by_cases hn2 : numbering = "sector, counterclockwise, right" <;>
                simp [antenna_surface_init_check, read_xds_check, init_ringed_check, hn1, hn2]
          | false => simp [antenna_surface_init_check, read_xds_check]
        · simp [antenna_surface_init_check, read_xds_check, hc]
  · by_cases hk : kind = "corotatedparaboloid" <;>
      simp [general_panel_init_check, panelkinds, icorpara, hk]

/-! ## C1 and C10: correct_surface -/

/-- Updating a map at a pixel stores the new value there. -/
theorem update_map_self (m : OMap nu nv) (i : Fin nu) (j : Fin nv) (v : FVal) :
    update_map m i j v i j = v := if_pos ⟨rfl, rfl⟩

/-- Updating a map at a pixel leaves every other pixel unchanged. -/
theorem update_map_ne (m : OMap nu nv) (i : Fin nu) (j : Fin nv) (v : FVal)
    (a : Fin nu) (b : Fin nv) (h : ¬ (a = i ∧ b = j)) :
    update_map m i j v a b = m a b := if_neg h

/-- One step of the correction loop. -/
theorem apply_corrections_cons (q : CorrRecord nu nv) (rest : List (CorrRecord nu nv))
    (cm rm : OMap nu nv) :
    apply_corrections (q :: rest) cm rm
      = apply_corrections rest (update_map cm q.1 q.2.1 (some (-q.2.2)))
          (update_map rm q.1 q.2.1 (fval_sub (rm q.1 q.2.1) q.2.2)) := rfl

/-- A pixel hit by no correction record keeps its initial corrections-map and
residuals-map values through the whole correction loop. -/
theorem apply_corrections_not_mem :
    ∀ (corrs : List (CorrRecord nu nv)) (cm rm : OMap nu nv) (i : Fin nu) (j : Fin nv),
      (i, j) ∉ corrs.map corr_pix →
      (apply_corrections corrs cm rm).1 i j = cm i j ∧
      (apply_corrections corrs cm rm).2 i j = rm i j := by
  intro corrs
  induction corrs with
  | nil => intro cm rm i j _; exact ⟨rfl, rfl⟩
  | cons q rest ih =>
    intro cm rm i j hmem
    rw [List.map_cons] at hmem
    have hne : ¬ (i = q.1 ∧ j = q.2.1) := by
      rintro ⟨rfl, rfl⟩
      exact hmem (List.mem_cons_self _ _)
    have hrest : (i, j) ∉ rest.map corr_pix := fun h => hmem (List.mem_cons_of_mem _ h)
    rw [apply_corrections_cons]
    have h := ih (update_map cm q.1 q.2.1 (some (-q.2.2)))
      (update_map rm q.1 q.2.1 (fval_sub (rm q.1 q.2.1) q.2.2)) i j hrest
    exact ⟨by rw [h.1, update_map_ne _ _ _ _ _ _ hne],
           by rw [h.2, update_map_ne _ _ _ _ _ _ hne]⟩

/-- A pixel hit by exactly one correction record (the record pixels being
duplicate-free) ends the loop with the negated correction stored in the
corrections map and the correction subtracted from its initial residual. -/
theorem apply_corrections_mem :
    ∀ (corrs : List (CorrRecord nu nv)) (cm rm : OMap nu nv)
      (i : Fin nu) (j : Fin nv) (c : ℝ),
      (corrs.map corr_pix).Nodup → (i, j, c) ∈ corrs →
      (apply_corrections corrs cm rm).1 i j = some (-c) ∧
      (apply_corrections corrs cm rm).2 i j = fval_sub (rm i j) c := by
  intro corrs
  induction corrs with
  | nil => intro _ _ _ _ _ _ h; exact absurd h (List.not_mem_nil _)
  | cons q rest ih =>
    intro cm rm i j c hnd hmem
    rw [List.map_cons, List.nodup_cons] at hnd
    rw [apply_corrections_cons]
    rcases List.mem_cons.mp hmem with heq | hrest
    · subst heq
      have h := apply_corrections_not_mem rest
        (update_map cm i j (some (-c)))
        (update_map rm i j (fval_sub (rm i j) c)) i j hnd.1
      exact ⟨by rw [h.1, update_map_self],
             by rw [h.2, update_map_self]⟩
    · have hij : ¬ (i = q.1 ∧ j = q.2.1) := by
        intro hand
        apply hnd.1
        have hin : corr_pix (i, j, c) ∈ rest.map corr_pix :=
          List.mem_map_of_mem corr_pix hrest
        rw [show corr_pix (i, j, c) = (i, j) from rfl] at hin
        rw [show corr_pix q = (q.1, q.2.1) from rfl, ← hand.1, ← hand.2]
        exact hin
      have h := ih (update_map cm q.1 q.2.1 (some (-q.2.2)))
        (update_map rm q.1 q.2.1 (fval_sub (rm q.1 q.2.1) q.2.2)) i j c hnd.2 hrest
      exact ⟨by rw [h.1],
             by rw [h.2, update_map_ne _ _ _ _ _ _ hij]⟩

/-- C1: after a successful `correct_surface` (panels fitted, correction
records targeting pairwise-distinct pixels, deviation defined on the mask),
the residual map and the corrections map are mutually consistent with the raw
deviation map: summing `residual - (raw_deviation - correction)` over all
masked pixels gives exactly zero, where the correction value applied at a
pixel is the negation of the stored corrections-map entry (0 at masked pixels
that received no panel correction). -/
theorem correct_surface_consistency (s : SurfaceState nu nv)
    (corrs : List (CorrRecord nu nv)) (hs : s.solved = true)
    (hnd : (corrs.map corr_pix).Nodup)
    (hdev : ∀ ix iy, s.mask ix iy = true → (s.deviation ix iy).isSome = true) :
    ∃ s' cF rF, correct_surface s corrs = Except.ok s' ∧
      s'.corrections = some cF ∧ s'.residuals = some rF ∧
      ∑ p ∈ mask_set s.mask,
        ((rF p.1 p.2).getD 0
          - (((s.deviation p.1 p.2).getD 0) - (-((cF p.1 p.2).getD 0)))) = 0 := by
  have hok : correct_surface s corrs = Except.ok
      { s with
        corrections := some (apply_corrections corrs
          (fun ix iy => if s.mask ix iy then some 0 else none) s.deviation).1,
        residuals := some (apply_corrections corrs
          (fun ix iy => if s.mask ix iy then some 0 else none) s.deviation).2,
        phase_corrections := some (deviation_to_phase_map s.wavelength s.focus s.rad
          (apply_corrections corrs
            (fun ix iy => if s.mask ix iy then some 0 else none) s.deviation).1),
        phase_residuals := some (deviation_to_phase_map s.wavelength s.focus s.rad
          (apply_corrections corrs
            (fun ix iy => if s.mask ix iy then some 0 else none) s.deviation).2) } := by
    simp [correct_surface, hs]
  refine ⟨_, _, _, hok, rfl, rfl, ?_⟩
  apply Finset.sum_eq_zero
  intro p hp
  have hmask : s.mask p.1 p.2 = true := (Finset.mem_filter.mp hp).2
  obtain ⟨d, hd⟩ := Option.isSome_iff_exists.mp (hdev p.1 p.2 hmask)
  by_cases hmem : (p.1, p.2) ∈ corrs.map corr_pix
  · obtain ⟨q, hq, hpix⟩ := List.mem_map.mp hmem
    obtain ⟨qi, qj, qc⟩ := q
    have hqi : qi = p.1 := congrArg Prod.fst hpix
    have hqj : qj = p.2 := congrArg Prod.snd hpix
    subst hqi
    subst hqj
    have h := apply_corrections_mem corrs
      (fun ix iy => if s.mask ix iy then some 0 else none) s.deviation p.1 p.2 qc hnd hq
    rw [h.1, h.2, hd]
    simp only [fval_sub, Option.map_some', Option.getD_some]
    ring
  · have h := apply_corrections_not_mem corrs
      (fun ix iy => if s.mask ix iy then some 0 else none) s.deviation p.1 p.2 hmem
    rw [h.1, h.2, hd]
    simp only [hmask, if_true, Option.getD_some]
    ring

/-- Witness for `correct_surface_consistency` on the fitted 1×1 example state
with a single correction record. -/
theorem correct_surface_consistency_witness :
    example_state_solved.solved = true ∧
    (([((0 : Fin 1), (0 : Fin 1), (1 : ℝ))].map corr_pix).Nodup) ∧
    (∀ ix iy, example_state_solved.mask ix iy = true →
      (example_state_solved.deviation ix iy).isSome = true) ∧
    (∃ s' cF rF,
      correct_surface example_state_solved [((0 : Fin 1), (0 : Fin 1), (1 : ℝ))]
        = Except.ok s' ∧
      s'.corrections = some cF ∧ s'.residuals = some rF ∧
      ∑ p ∈ mask_set example_state_solved.mask,
        ((rF p.1 p.2).getD 0
          - (((example_state_solved.deviation p.1 p.2).getD 0)
              - (-((cF p.1 p.2).getD 0)))) = 0) :=
  ⟨rfl, by decide, fun _ _ _ => rfl,
    correct_surface_consistency example_state_solved
      [((0 : Fin 1), (0 : Fin 1), (1 : ℝ))] rfl (by decide) (fun _ _ _ => rfl)⟩

/-- C10: after a successful `correct_surface` (panels fitted, every
correction record targeting a masked pixel): a masked pixel hit by no panel
correction keeps correction exactly 0 and residual exactly its raw deviation;
a pixel outside the mask has correction NaN and residual equal to its raw
deviation; and no field of the state other than `corrections`, `residuals`,
`phase_corrections` and `phase_residuals` is modified. -/
theorem correct_surface_frame (s : SurfaceState nu nv)
    (corrs : List (CorrRecord nu nv)) (hs : s.solved = true)
    (hmask : ∀ q ∈ corrs, s.mask q.1 q.2.1 = true) :
    ∃ s' cF rF, correct_surface s corrs = Except.ok s' ∧
      s'.corrections = some cF ∧ s'.residuals = some rF ∧
      (∀ ix iy, s.mask ix iy = true → (ix, iy) ∉ corrs.map corr_pix →
        cF ix iy = some 0 ∧ rF ix iy = s.deviation ix iy) ∧
      (∀ ix iy, s.mask ix iy = false →
        cF ix iy = none ∧ rF ix iy = s.deviation ix iy) ∧
      s'.amplitude = s.amplitude ∧ s'.phase = s.phase ∧
      s'.deviation = s.deviation ∧ s'.mask = s.mask ∧ s'.rad = s.rad ∧
      s'.wavelength = s.wavelength ∧ s'.focus = s.focus ∧
      s'.solved = s.solved := by
  have hok : correct_surface s corrs = Except.ok
      { s with
        corrections := some (apply_corrections corrs
          (fun ix iy => if s.mask ix iy then some 0 else none) s.deviation).1,
        residuals := some (apply_corrections corrs
          (fun ix iy => if s.mask ix iy then some 0 else none) s.deviation).2,
        phase_corrections := some (deviation_to_phase_map s.wavelength s.focus s.rad
          (apply_corrections corrs
            (fun ix iy => if s.mask ix iy then some 0 else none) s.deviation).1),
        phase_residuals := some (deviation_to_phase_map s.wavelength s.focus s.rad
          (apply_corrections corrs
            (fun ix iy => if s.mask ix iy then some 0 else none) s.deviation).2) } := by
    simp [correct_surface, hs]
  refine ⟨_, _, _, hok, rfl, rfl, ?_, ?_, rfl, rfl, rfl, rfl, rfl, rfl, rfl, rfl⟩
  · intro ix iy hm hmem
    have h := apply_corrections_not_mem corrs
      (fun ix iy => if s.mask ix iy then some 0 else none) s.deviation ix iy hmem
    rw [h.1, h.2]
    simp [hm]
  · intro ix iy hm
    have hmem : (ix, iy) ∉ corrs.map corr_pix := by
      intro hin
      obtain ⟨q, hq, hpix⟩ := List.mem_map.mp hin
      have h1 := hmask q hq
      have hqi : q.1 = ix := congrArg Prod.fst hpix
      have hqj : q.2.1 = iy := congrArg Prod.snd hpix
      rw [hqi, hqj, hm] at h1
      exact absurd h1 (by simp)
    have h := apply_corrections_not_mem corrs
      (fun ix iy => if s.mask ix iy then some 0 else none) s.deviation ix iy hmem
    rw [h.1, h.2]
    simp [hm]

/-- Witness for `correct_surface_frame` on the fitted 1×1 example state with
a single masked correction record. -/
theorem correct_surface_frame_witness :
    example_state_solved.solved = true ∧
    (∀ q ∈ [((0 : Fin 1), (0 : Fin 1), (1 : ℝ))],
      example_state_solved.mask q.1 q.2.1 = true) ∧
    (∃ s' cF rF,
      correct_surface example_state_solved [((0 : Fin 1), (0 : Fin 1), (1 : ℝ))]
        = Except.ok s' ∧
      s'.corrections = some cF ∧ s'.residuals = some rF ∧
      (∀ ix iy, example_state_solved.mask ix iy = true →
        (ix, iy) ∉ ([((0 : Fin 1), (0 : Fin 1), (1 : ℝ))].map corr_pix) →
        cF ix iy = some 0 ∧ rF ix iy = example_state_solved.deviation ix iy) ∧
      (∀ ix iy, example_state_solved.mask ix iy = false →
        cF ix iy = none ∧ rF ix iy = example_state_solved.deviation ix iy) ∧
      s'.amplitude = example_state_solved.amplitude ∧
      s'.phase = example_state_solved.phase ∧
      s'.deviation = example_state_solved.deviation ∧
      s'.mask = example_state_solved.mask ∧
      s'.rad = example_state_solved.rad ∧
      s'.wavelength = example_state_solved.wavelength ∧
      s'.focus = example_state_solved.focus ∧
      s'.solved = example_state_solved.solved) :=
  ⟨rfl, fun _ _ => rfl,
    correct_surface_frame example_state_solved
      [((0 : Fin 1), (0 : Fin 1), (1 : ℝ))] rfl (fun _ _ => rfl)⟩

/-! ## C3: first-match point assignment -/

/-- If no panel's `is_inside` reports "in panel", the pixel is assigned to
zero panels and the panel list is unchanged. -/
theorem assign_pixel_no_match (r φ : ℝ) (v : PointRecord) :
    ∀ (panels : List PanelPoints),
      (∀ p ∈ panels, (p.is_inside r φ).2 = false) →
      assign_pixel panels r φ v = panels := by
  intro panels
  induction panels with
  | nil => intro _; rfl
  | cons a rest ih =>
    intro hall
    have ha := hall a (List.mem_cons_self a rest)
    simp only [assign_pixel, ha, Bool.false_eq_true, if_false]
    rw [ih (fun p hp => hall p (List.mem_cons_of_mem a hp))]

/-- If every panel before `panel` reports "not in panel" and `panel` reports
"in panel", the pixel is routed into `panel` (sample or margin according to
the flag) and no other panel is touched. -/
theorem assign_pixel_hit (r φ : ℝ) (v : PointRecord) :
    ∀ (l1 : List PanelPoints) (panel : PanelPoints) (l2 : List PanelPoints),
      (∀ p ∈ l1, (p.is_inside r φ).2 = false) →
      (panel.is_inside r φ).2 = true →
      assign_pixel (l1 ++ panel :: l2) r φ v
        = l1 ++ (if (panel.is_inside r φ).1 then add_sample panel v
                 else add_margin panel v) :: l2 := by
  intro l1
  induction l1 with
  | nil =>
    intro panel l2 _ hin
    simp only [List.nil_append, assign_pixel, hin, if_true]
  | cons a l1' ih =>
    intro panel l2 h1 hin
    have ha := h1 a (List.mem_cons_self a l1')
    simp only [List.cons_append, assign_pixel, ha, Bool.false_eq_true, if_false,
      List.append_eq]
    rw [ih panel l2 (fun p hp => h1 p (List.mem_cons_of_mem a hp)) hin]

/-- C3: during point assignment a valid pixel is tested against the panels in
list order and assignment stops at the first panel whose `is_inside` returns
true: if no panel contains the pixel the list is unchanged (the pixel is
assigned to zero panels), and if the panels before the first containing panel
all reject it, exactly that one panel receives the record — appended to its
samples when the sample flag is set, to its margins otherwise — so a pixel is
never assigned to two panels. -/
theorem assign_pixel_first_match (panels : List PanelPoints) (r φ : ℝ) (v : PointRecord) :
    ((∀ p ∈ panels, (p.is_inside r φ).2 = false) → assign_pixel panels r φ v = panels) ∧
    (∀ l1 panel l2, panels = l1 ++ panel :: l2 →
      (∀ p ∈ l1, (p.is_inside r φ).2 = false) →
      (panel.is_inside r φ).2 = true →
      assign_pixel panels r φ v
        = l1 ++ (if (panel.is_inside r φ).1 then add_sample panel v
                 else add_margin panel v) :: l2) := by
  constructor
  · exact assign_pixel_no_match r φ v panels
  · intro l1 panel l2 hdec h1 hin
    rw [hdec]
    exact assign_pixel_hit r φ v l1 panel l2 h1 hin

/-- Witness for `assign_pixel_first_match` on a two-panel list whose first
panel rejects the pixel and whose second contains it as a sample. -/
theorem assign_pixel_first_match_witness :
    (∀ p ∈ [panel_out], (p.is_inside 0 0).2 = false) ∧
    (panel_in.is_inside 0 0).2 = true ∧
    assign_pixel [panel_out, panel_in] 0 0 example_record
      = [panel_out] ++ (if (panel_in.is_inside 0 0).1 then add_sample panel_in example_record
                        else add_margin panel_in example_record) :: [] := by
  refine ⟨?_, rfl, ?_⟩
  · intro p hp
    rw [List.mem_singleton] at hp
    subst hp
    rfl
  · exact (assign_pixel_first_match [panel_out, panel_in] 0 0 example_record).2
      [panel_out] panel_in [] rfl
      (fun p hp => by rw [List.mem_singleton] at hp; subst hp; rfl) rfl

/-! ## C5: gains -/

/-- C5: `_gains_array` returns the pair (actual gain, theoretical gain) in
decibels: the theoretical gain is `4π·(1000·pixel-size/wavelength)²`, the
actual gain is the theoretical gain times
`|Σ cos(phase) + i·Σ sin(phase)|` over the valid pixels divided by the number
of valid pixels, and both are converted to decibels as `10·log10`; for a
phase array that is constant over the mask (and a nonempty mask) the actual
gain equals the theoretical gain. -/
theorem gains_array_spec (mask : Fin nu → Fin nv → Bool)
    (reso wavelength c : ℝ) (arr : Fin nu → Fin nv → ℝ) :
    gains_array mask reso wavelength arr
      = (convert_to_db (theoretical_gain reso wavelength *
            Complex.abs ⟨∑ p ∈ mask_set mask, Real.cos (arr p.1 p.2),
                         ∑ p ∈ mask_set mask, Real.sin (arr p.1 p.2)⟩ /
            ((mask_set mask).card : ℝ)),
         convert_to_db (theoretical_gain reso wavelength)) ∧
    ((∀ p ∈ mask_set mask, arr p.1 p.2 = c) → 0 < (mask_set mask).card →
      (gains_array mask reso wavelength arr).1 = (gains_array mask reso wavelength arr).2) := by
  constructor
  · simp only [gains_array]
    congr 2
    rw [Complex.abs_apply, Complex.normSq_mk]
    congr 1
    ring_nf
  · intro hc hcard
    simp only [gains_array]
    set N : ℝ := ((mask_set mask).card : ℝ) with hN
    have hNpos : 0 < N := by rw [hN]; exact_mod_cast hcard
    have hcos : ∑ p ∈ mask_set mask, Real.cos (arr p.1 p.2) = N * Real.cos c := by
      rw [Finset.sum_congr rfl (fun p hp => by rw [hc p hp])]
      rw [Finset.sum_const, nsmul_eq_mul]
    have hsin : ∑ p ∈ mask_set mask, Real.sin (arr p.1 p.2) = N * Real.sin c := by
      rw [Finset.sum_congr rfl (fun p hp => by rw [hc p hp])]
      rw [Finset.sum_const, nsmul_eq_mul]
    rw [hcos, hsin]
    have hsq : (N * Real.cos c) ^ 2 + (N * Real.sin c) ^ 2 = N ^ 2 := by
      rw [mul_pow, mul_pow, ← mul_add, Real.cos_sq_add_sin_sq, mul_one]
    rw [hsq, Real.sqrt_sq (le_of_lt hNpos), mul_div_assoc, div_self (ne_of_gt hNpos), mul_one]

/-- Witness for `gains_array_spec` on the all-valid 1×1 mask with the constant
zero phase array: actual gain equals theoretical gain. -/
theorem gains_array_spec_witness :
    (∀ p ∈ mask_set ex_mask, ex_zero_arr p.1 p.2 = 0) ∧
    0 < (mask_set ex_mask).card ∧
    (gains_array ex_mask 1 1 ex_zero_arr).1 = (gains_array ex_mask 1 1 ex_zero_arr).2 :=
  ⟨fun _ _ => rfl, by decide,
    (gains_array_spec ex_mask 1 1 0 ex_zero_arr).2 (fun _ _ => rfl) (by decide)⟩

/-! ## C7: the polar grid -/

/-- C7 counterexample: on the 2-pixel axes `u = v = [0, 1]` the code's azimuth
at pixel `(ix, iy) = (1, 0)` (Cartesian coordinates `(u[1], v[0]) = (1, 0)`)
is `0`, while the claim's convention — angle measured from the y-axis
increasing toward positive x — gives `π/2` for that pixel: `_build_polar`
transposes the azimuth array (`.T`), so `phi[ix, iy] = arctan2(u[iy], v[ix])`,
not `arctan2(u[ix], v[iy])`. -/
theorem build_polar_phi_cex :
    build_polar_phi ex_axis ex_axis 1 0 ≠ polar_phi_spec ex_axis ex_axis 1 0 := by
  have h1 : ex_axis (1 : Fin 2) = 1 := by simp [ex_axis]
  have h0 : ex_axis (0 : Fin 2) = 0 := by simp [ex_axis]
  have hcode : build_polar_phi ex_axis ex_axis 1 0 = 0 := by
    simp only [build_polar_phi, arctan2, h1, h0]
    have hone : (⟨1, 0⟩ : ℂ) = 1 := by
      apply Complex.ext <;> simp
    rw [hone, Complex.arg_one]
    simp [norm_angle]
  have hspec : polar_phi_spec ex_axis ex_axis 1 0 = Real.pi / 2 := by
    simp only [polar_phi_spec, arctan2, h1, h0]
    have hi : (⟨0, 1⟩ : ℂ) = Complex.I := rfl
    rw [hi, Complex.arg_I]
    have hge : ¬ Real.pi / 2 < 0 := not_lt.mpr (by positivity)
    rw [norm_angle, if_neg hge]
  rw [hcode, hspec]
  intro h
  have := Real.pi_pos
  rw [eq_comm, div_eq_zero_iff] at h
  rcases h with h | h <;> linarith

/-- C7 amended: the polar grid assigns to pixel `(ix, iy)` the radius
`sqrt(u[ix]² + v[iy]²)`, and an azimuth equal to the normalised
`arctan2(u[iy], v[ix])` — the indices are transposed relative to the radius
grid (when the u and v axes coincide this measures the angle from the x-axis
increasing toward positive y); the azimuth always lies in `[0, 2π)` and is
defined without error (value 0) at the degenerate pixel with both coordinates
zero (radius 0, no division by zero). -/
theorem build_polar_grid_amended (u v : Fin n → ℝ) (ix iy : Fin n) :
    build_polar_rad u v ix iy = Real.sqrt (u ix ^ 2 + v iy ^ 2) ∧
    build_polar_phi u v ix iy = norm_angle (arctan2 (u iy) (v ix)) ∧
    0 ≤ build_polar_phi u v ix iy ∧ build_polar_phi u v ix iy < twopi ∧
    (u iy = 0 → v ix = 0 → build_polar_phi u v ix iy = 0) := by
  have hpi := Real.pi_pos
  have hlo := Complex.neg_pi_lt_arg ⟨v ix, u iy⟩
  have hhi := Complex.arg_le_pi ⟨v ix, u iy⟩
  refine ⟨rfl, rfl, ?_, ?_, ?_⟩
  · simp only [build_polar_phi, arctan2, norm_angle, twopi]
    split <;> [linarith; linarith]
  · simp only [build_polar_phi, arctan2, norm_angle, twopi]
    split <;> [linarith; linarith]
  · intro hu hv
    simp only [build_polar_phi, arctan2, hu, hv]
    have hzero : (⟨(0:ℝ), (0:ℝ)⟩ : ℂ) = 0 := by apply Complex.ext <;> simp
    rw [hzero, Complex.arg_zero]
    simp [norm_angle]

/-- Witness for `build_polar_grid_amended` at the one-pixel zero axes: the
degenerate center pixel gets azimuth 0 with no error. -/
theorem build_polar_grid_amended_witness :
    ex_axis0 0 = 0 ∧ ex_axis0 0 = 0 ∧ build_polar_phi ex_axis0 ex_axis0 0 0 = 0 :=
  ⟨rfl, rfl, (build_polar_grid_amended ex_axis0 ex_axis0 0 0).2.2.2.2 rfl rfl⟩

/-! ## C9: VLA panel labels -/

/-- Decimal digit rendering of any `n < 10` is a single character. -/
theorem repr_length_lt_ten (n : ℕ) (h : n < 10) : (Nat.repr n).length = 1 := by
  interval_cases n <;> rfl

/-- `Nat.toDigitsCore` with positive fuel produces at least one digit on top
of the accumulator. -/
theorem toDigitsCore_length_ge (b : ℕ) :
    ∀ (fuel n : ℕ) (ds : List Char),
      ds.length + 1 ≤ (Nat.toDigitsCore b (fuel + 1) n ds).length := by
  intro fuel
  induction fuel with
  | zero =>
    intro n ds
    simp only [Nat.toDigitsCore]
    split
    · simp
    · simp [Nat.toDigitsCore]
  | succ f ih =>
    intro n ds
    simp only [Nat.toDigitsCore]
    split
    · simp
    · calc ds.length + 1 ≤ (Nat.digitChar (n % b) :: ds).length + 1 := by simp
        _ ≤ _ := ih (n / b) (Nat.digitChar (n % b) :: ds)

/-- Decimal digit rendering of any `n ≥ 10` has at least two characters. -/
theorem repr_length_ge_two (n : ℕ) (h : 10 ≤ n) : 2 ≤ (Nat.repr n).length := by
  have hdiv : ¬ n / 10 = 0 := by
    have h1 : 1 ≤ n / 10 := (Nat.one_le_div_iff (by norm_num)).mpr h
    omega
  obtain ⟨m, rfl⟩ : ∃ m, n = m + 1 := ⟨n - 1, by omega⟩
  show 2 ≤ (Nat.toDigits 10 (m + 1)).asString.length
  have hlen : (Nat.toDigits 10 (m + 1)).asString.length = (Nat.toDigits 10 (m + 1)).length := rfl
  rw [hlen]
  show 2 ≤ (Nat.toDigitsCore 10 (m + 1 + 1) (m + 1) []).length
  have hunfold : Nat.toDigitsCore 10 (m + 1 + 1) (m + 1) []
      = Nat.toDigitsCore 10 (m + 1) ((m + 1) / 10) [Nat.digitChar ((m + 1) % 10)] := by
    simp only [Nat.toDigitsCore]
    rw [if_neg hdiv]
  rw [hunfold]
  obtain ⟨k, hk⟩ : ∃ k, m = k + 1 := ⟨m - 1, by omega⟩
  rw [hk]
  exact toDigitsCore_length_ge 10 (k + 1) ((k + 1 + 1) / 10) [Nat.digitChar ((k + 1 + 1) % 10)]

/-- C9 counterexample: for ring 0, panel 0 the label produced by
`_vla_panel_labeling` is `"1- 1"` (the panel number is rendered by the Python
format `'{1:2d}'`, right-aligned in a field of width 2), not the claimed
`"1-1"`. -/
theorem vla_panel_labeling_cex :
    vla_panel_labeling 0 0 = "1- 1" ∧ "1- 1" ≠ "1-1" := by
  constructor
  · rfl
  · decide

/-- C9 amended: under the ring-clockwise-from-top convention the label is the
one-based ring number, a hyphen, and the one-based panel number right-aligned
in a field of width 2 — a single-digit panel number is preceded by a space,
a panel number of 10 or more is rendered as its plain digits. -/
theorem vla_panel_labeling_amended (iring ipanel : ℕ) :
    vla_panel_labeling iring ipanel
      = Nat.repr (iring + 1) ++ "-" ++
        (if ipanel + 1 < 10 then " " ++ Nat.repr (ipanel + 1)
         else Nat.repr (ipanel + 1)) := by
  unfold vla_panel_labeling format_d format_2d
  by_cases h : ipanel + 1 < 10
  · rw [if_pos h, if_pos (by rw [repr_length_lt_ten _ h]; norm_num)]
  · rw [if_neg h, if_neg (by
      have h2 := repr_length_ge_two (ipanel + 1) (by omega)
      omega)]

end Astrohack
